import Mathlib

/-!
# Verification of the mergerfs branch-dispatch core

Shallow embedding of `src/src/rmdir.cpp` and `src/src/getxattr.cpp`:
the Action-category aggregation loop of `_rmdir`, the control-file
extended-attribute interface of `_getxattr_controlfile`, the per-path
diagnostic namespace of `_getxattr_user_mergerfs`, and the per-call
privilege scope.  Collaborators that are not part of the two source
files (policy resolvers, `str::split`/`str::join`, `fs::findallfiles`,
`ugid` guards) are modelled from the specification and marked as such.
-/

set_option autoImplicit false

namespace Mergerfs

/-- Linux errno `ENOENT` ("not found"). -/
def ENOENT : Int := 2

/-- Linux errno `ENOTDIR` ("not a directory"). -/
def ENOTDIR : Int := 20

/-- Linux errno `ERANGE` ("range" error: buffer too small). -/
def ERANGE : Int := 34

/-- Linux errno `ENOATTR` (= `ENODATA`, "attribute not found"). -/
def ENOATTR : Int := 61

/-- Outcome of one underlying system call: success, or failure with a
positive `errno` value. -/
inductive SysRes where
  | ok : SysRes
  | err : Nat → SysRes
deriving DecidableEq, Repr

/-- The errno recorded for an outcome (`0` for success; a successful call
leaves the C global `errno` untouched, the loop below never reads it then). -/
def errnoOf : SysRes → Nat
  | SysRes.ok => 0
  | SysRes.err e => e

/-- The errno of the last element of a candidate list (`dflt` when empty). -/
def lastErrno (sys : String → SysRes) (l : List String) (dflt : Nat) : Nat :=
  match l.getLast? with
  | none => dflt
  | some p => errnoOf (sys p)

/-- Embeds the aggregation loop of `_rmdir` (src/src/rmdir.cpp lines 53-61):
`rv &= ::rmdir(path)` where `::rmdir` returns `0` on success and `-1` on
failure, then `if (rv == -1) error = errno`.  `en` models the C global
`errno`: a failing call sets it to the call's error code, a successful call
leaves it unchanged. -/
def rmdirLoop (sys : String → SysRes) : List String → Int → Nat → Nat → Int × Nat
  | [], rv, error, _ => (rv, error)
  | p :: ps, rv, error, en =>
    match sys p with
    | SysRes.ok =>
        rmdirLoop sys ps (Int.land rv 0)
          (if Int.land rv 0 = -1 then en else error) en
    | SysRes.err e =>
        rmdirLoop sys ps (Int.land rv (-1))
          (if Int.land rv (-1) = -1 then e else error) e

/-- Embeds `_rmdir` (src/src/rmdir.cpp lines 41-64) applied to the candidate
set produced by the Action resolver.  The result is the returned value paired
with the number of underlying `::rmdir` system calls issued (one per loop
iteration, so `paths.length`; `0` on the empty-candidate early return). -/
def rmdirAction (sys : String → SysRes) (paths : List String) : Int × Nat :=
  match paths with
  | [] => (-ENOENT, 0)
  | p :: ps =>
    let r := rmdirLoop sys (p :: ps) (-1) 0 0
    (if r.1 = -1 then -(r.2 : Int) else 0, (p :: ps).length)

/-- Effective identity (uid/gid pair). -/
structure Cred where
  uid : Nat
  gid : Nat
deriving DecidableEq, Repr

/-- Modelled from the spec: the PrivilegeScope contract of §4.4
(`ugid::SetResetGuard` / `ugid::Set`; ugid.hpp's implementation is not in
src/).  On entry the current effective identity is saved and the caller's
is installed; the body runs entirely under the caller's identity; on every
exit path the saved identity is restored.  The scope is a pure function of
the incoming identity: it returns the body's result together with the
identity in effect after the scope ends. -/
def privilegeScope {α : Type} (caller : Cred) (body : Cred → α) (cur : Cred) : α × Cred :=
  (body caller, cur)

/-- The configuration visible to `mergerfs::rmdir::rmdir`: the reserved
control path, the branch list, and the Action policy resolver
(`config.policy.action`, not in src/, modelled as an opaque-to-us function
from branch list and fuse path to the candidate full paths). -/
structure RmdirConfig where
  controlfile : String
  srcmounts : List String
  action : List String → String → List String

/-- Embeds `mergerfs::rmdir::rmdir` (src/src/rmdir.cpp lines 70-82): the
ugid guard is constructed first, then the control-path check, then the
dispatch to `_rmdir`.  `sys` is the `::rmdir` system call, which observes
the effective identity installed by the scope. -/
def rmdirFuse (cfg : RmdirConfig) (sys : Cred → String → SysRes)
    (caller : Cred) (fusepath : String) (cur : Cred) : (Int × Nat) × Cred :=
  privilegeScope caller
    (fun eff =>
      if fusepath = cfg.controlfile then (-ENOTDIR, 0)
      else rmdirAction (sys eff) (cfg.action cfg.srcmounts fusepath))
    cur

/-- The explicit reformulation of the aggregation loop from the spec's
design notes (§9): a boolean "any succeeded" flag plus a "last error"
variable, updated each iteration. -/
def rmdirLoopExplicit (sys : String → SysRes) : List String → Bool → Nat → Bool × Nat
  | [], anyOk, lastErr => (anyOk, lastErr)
  | p :: ps, anyOk, lastErr =>
    match sys p with
    | SysRes.ok => rmdirLoopExplicit sys ps true lastErr
    | SysRes.err e => rmdirLoopExplicit sys ps anyOk e

/-- `_rmdir` rewritten with the explicit flag/last-error loop, exactly as
the spec's design note describes; same result/syscall-count shape as
`rmdirAction`. -/
def rmdirActionExplicit (sys : String → SysRes) (paths : List String) : Int × Nat :=
  match paths with
  | [] => (-ENOENT, 0)
  | p :: ps =>
    let r := rmdirLoopExplicit sys (p :: ps) false 0
    (if r.1 then 0 else -(r.2 : Int), (p :: ps).length)

/-! ## The extended-attribute interface (src/src/getxattr.cpp) -/

/-- Modelled from the spec: `str::split` (str.cpp is not in src/), the
standard C++ `getline`-on-a-stringstream idiom used throughout the code:
tokens are the maximal runs between separators; a trailing separator
produces no trailing empty token; the empty string produces an empty
vector. -/
def splitGo (sep : Char) : List Char → List Char → List String
  | [], acc => [String.mk acc.reverse]
  | c :: cs, acc =>
    if c = sep then
      String.mk acc.reverse :: (if cs.isEmpty then [] else splitGo sep cs [])
    else splitGo sep cs (c :: acc)

/-- Split a string on a separator character (`str::split`, see `splitGo`). -/
def strSplit (sep : Char) (s : String) : List String :=
  if s.data.isEmpty then [] else splitGo sep s.data []

/-- Modelled from the spec: `str::join` (str.cpp is not in src/): the
elements joined with the separator between consecutive elements. -/
def strJoin (sep : Char) : List String → String
  | [] => ""
  | [s] => s
  | s :: ss => s ++ String.mk [sep] ++ strJoin sep ss

/-- Lexicographic comparison on char lists, mirroring `std::string`'s
`operator<`-based ordering used by `std::sort`. -/
def charListLe : List Char → List Char → Bool
  | [], _ => true
  | _ :: _, [] => false
  | a :: as, b :: bs => if a < b then true else if b < a then false else charListLe as bs

/-- `a ≤ b` on strings as byte-wise lexicographic comparison. -/
def strLe (a b : String) : Bool := charListLe a.data b.data

/-- Insert into a sorted list (auxiliary for `sortStrings`). -/
def insertSorted (x : String) : List String → List String
  | [] => [x]
  | y :: ys => if strLe x y then x :: y :: ys else y :: insertSorted x ys

/-- Sorting mirror of `std::sort` on a vector of strings (insertion sort;
the result is sorted in the same total order). -/
def sortStrings : List String → List String
  | [] => []
  | x :: xs => insertSorted x (sortStrings xs)

/-- Mirror of `std::unique` + `erase` on a sorted vector: collapse
consecutive duplicates. -/
def uniqueConsecutive : List String → List String
  | [] => []
  | [a] => [a]
  | a :: b :: rest =>
    if a = b then uniqueConsecutive (b :: rest)
    else a :: uniqueConsecutive (b :: rest)

/-- Rendering of a boolean configuration flag
(`_getxattr_controlfile_bool`). -/
def boolString (b : Bool) : String := if b then "true" else "false"

/-- The fixed tables surrounding getxattr.cpp that are declared elsewhere
in the repository (policy.hpp / fusefunc.hpp / version.hpp, not in src/),
modelled from the spec: the registry's policy-name list in registry order,
the build version string, the driver pid, the Category names, and the
FuseFunc table as (operation name, category name) pairs in enum order. -/
structure XattrEnv where
  registry : List String
  version : String
  pid : Nat
  categories : List String
  funcs : List (String × String)

/-- The configuration fields read by getxattr.cpp (config.hpp is not in
src/; fields modelled from the spec / their use sites).  `policies` is the
currently assigned policy name per operation, aligned index-wise with
`XattrEnv.funcs`. -/
structure XattrConfig where
  controlfile : String
  srcmounts : List String
  minfreespace : Nat
  maxsize : Nat
  moveonenospc : Bool
  dropcacheonclose : Bool
  symlinkify : Bool
  symlinkifyTimeout : Nat
  policies : List String

/-- Embeds `_getxattr_controlfile_policies` (src/src/getxattr.cpp lines
136-144): `attrvalue = policies[begin]; for (i++) attrvalue += ',' +
policies[i]`.  The registry is fixed and non-empty at build time; the
impossible empty case is totalized to the empty string. -/
def policiesValue (registry : List String) : String :=
  match registry with
  | [] => ""
  | p :: ps => ps.foldl (fun acc q => acc ++ "," ++ q) p

/-- Embeds `_getxattr_controlfile_category_policy` (lines 71-92):
`Category::find(attr)`; if valid, collect `config.policies[i]` for every
FuseFunc `i` whose category matches, then `std::sort`, `std::unique`, and
join with `','`. -/
def categoryPolicyValue (env : XattrEnv) (cfg : XattrConfig) (attr : String) : String :=
  if env.categories.contains attr then
    strJoin ','
      (uniqueConsecutive (sortStrings
        ((List.zip env.funcs cfg.policies).filterMap
          (fun fc => if fc.1.2 = attr then some fc.2 else none))))
  else ""

/-- Embeds `_getxattr_controlfile_fusefunc_policy` (lines 58-67):
`FuseFunc::find(attr)`; if valid, the single assigned policy name. -/
def fusefuncPolicyValue (env : XattrEnv) (cfg : XattrConfig) (attr : String) : String :=
  match (List.zip env.funcs cfg.policies).find? (fun fc => fc.1.1 = attr) with
  | some fc => fc.2
  | none => ""

/-- Embeds the key dispatch switch of `_getxattr_controlfile` (lines
181-212): the two-segment prefix has already been validated; 3 total
segments select a scalar/global value, 4 total segments select
`category.<name>` / `func.<name>`; anything else leaves the value empty. -/
def controlfileSwitch (env : XattrEnv) (cfg : XattrConfig) : List String → String
  | [_, _, k] =>
    if k = "srcmounts" then strJoin ':' cfg.srcmounts
    else if k = "minfreespace" then toString cfg.minfreespace
    else if k = "maxsize" then toString cfg.maxsize
    else if k = "moveonenospc" then boolString cfg.moveonenospc
    else if k = "dropcacheonclose" then boolString cfg.dropcacheonclose
    else if k = "symlinkify" then boolString cfg.symlinkify
    else if k = "symlinkify_timeout" then toString cfg.symlinkifyTimeout
    else if k = "policies" then policiesValue env.registry
    else if k = "version" then env.version
    else if k = "pid" then toString env.pid
    else ""
  | [_, _, k, v] =>
    if k = "category" then categoryPolicyValue env cfg v
    else if k = "func" then fusefuncPolicyValue env cfg v
    else ""
  | _ => ""

/-- Embeds `_getxattr_controlfile` (lines 167-228).  The result is `none`
when the C++ would perform an out-of-bounds `std::vector::operator[]`
access on the split vector (undefined behaviour), and otherwise `some
(returnValue, bytesWrittenToBuffer)`.  The `||` in the prefix check
short-circuits: `attr[1]` is only read when `attr[0] == "user"`. -/
def getxattrControlfile (env : XattrEnv) (cfg : XattrConfig)
    (attrname : String) (count : Nat) : Option (Int × Option String) :=
  let attr := strSplit '.' attrname
  match attr.get? 0 with
  | none => none
  | some a0 =>
    if a0 ≠ "user" then some (-ENOATTR, none)
    else
      match attr.get? 1 with
      | none => none
      | some a1 =>
        if a1 ≠ "mergerfs" then some (-ENOATTR, none)
        else
          let attrvalue := controlfileSwitch env cfg attr
          if attrvalue = "" then some (-ENOATTR, none)
          else if count = 0 then some ((attrvalue.length : Int), none)
          else if count < attrvalue.length then some (-ERANGE, none)
          else some ((attrvalue.length : Int), some attrvalue)

/-- Embeds `_getxattr_from_string` (lines 232-247): size probe when the
destination size is zero; `-ERANGE` when the value exceeds the nonzero
destination size; otherwise copy and return the length. -/
def getxattrFromString (count : Nat) (src : String) : Int × Option String :=
  if count = 0 then ((src.length : Int), none)
  else if src.length > count then (-ERANGE, none)
  else ((src.length : Int), some src)

/-- Modelled from the spec: `fs::path::make` (not in src/) — a full path is
the branch base path concatenated with the merged-view relative path. -/
def makeFullPath (base rel : String) : String := base ++ rel

/-- Modelled from the spec: `fs::findallfiles` (not in src/) — the
fully-qualified path on every branch that contains the entry, across all
branches unconditionally, in branch-configured order.  `onBranch b p`
tells whether branch `b` currently contains relative path `p`. -/
def findallfiles (onBranch : String → String → Bool)
    (srcmounts : List String) (fusepath : String) : List String :=
  (srcmounts.filter (fun b => onBranch b fusepath)).map
    (fun b => makeFullPath b fusepath)

/-- Embeds `_getxattr_user_mergerfs_allpaths` (lines 251-264): find all
files, join with the NUL byte, serve through `_getxattr_from_string`. -/
def getxattrAllpaths (onBranch : String → String → Bool)
    (srcmounts : List String) (fusepath : String) (count : Nat) :
    Int × Option String :=
  getxattrFromString count
    (strJoin (Char.ofNat 0) (findallfiles onBranch srcmounts fusepath))

/-- Embeds `_getxattr_user_mergerfs` (lines 268-290): `attr[2]` is read
unconditionally from the split vector (result `none` marks the
out-of-bounds access), then compared against the four diagnostic keys. -/
def getxattrUserMergerfs (onBranch : String → String → Bool)
    (basepath fusepath fullpath : String) (srcmounts : List String)
    (attrname : String) (count : Nat) : Option (Int × Option String) :=
  let attr := strSplit '.' attrname
  match attr.get? 2 with
  | none => none
  | some a2 =>
    if a2 = "basepath" then some (getxattrFromString count basepath)
    else if a2 = "relpath" then some (getxattrFromString count fusepath)
    else if a2 = "fullpath" then some (getxattrFromString count fullpath)
    else if a2 = "allpaths" then some (getxattrAllpaths onBranch srcmounts fusepath count)
    else some (-ENOATTR, none)

/-- Embeds `_getxattr` (lines 294-318).  The Search policy
(`Policy::Func::Search`, not in src/) is modelled as an oracle producing
either an errno (the `rv == -1` path) or the selected branch base path
(`basepaths[0]`); `lsys` is the passthrough `fs::lgetxattr` system call
(already returning `-errno` on failure, as `_lgetxattr` does). -/
def getxattrNormal (search : List String → String → Nat → Except Nat String)
    (onBranch : String → String → Bool)
    (lsys : String → String → Nat → Int × Option String)
    (srcmounts : List String) (minfreespace : Nat)
    (fusepath attrname : String) (count : Nat) : Option (Int × Option String) :=
  match search srcmounts fusepath minfreespace with
  | Except.error e => some (-(e : Int), none)
  | Except.ok basepath =>
    if attrname.startsWith "user.mergerfs." then
      getxattrUserMergerfs onBranch basepath fusepath
        (makeFullPath basepath fusepath) srcmounts attrname count
    else
      some (lsys (makeFullPath basepath fusepath) attrname count)

/-- Embeds `mergerfs::fuse::getxattr` (lines 324-349): the control path is
served by `_getxattr_controlfile` before any privilege scope; any other
path acquires the scope (ugid::Set, modelled from the spec, see
`privilegeScope`) and dispatches to `_getxattr`, whose oracles observe the
effective identity. -/
def getxattrFuse (cfg : XattrConfig) (env : XattrEnv)
    (search : Cred → List String → String → Nat → Except Nat String)
    (onBranch : Cred → String → String → Bool)
    (lsys : Cred → String → String → Nat → Int × Option String)
    (caller : Cred) (fusepath attrname : String) (count : Nat) (cur : Cred) :
    Option (Int × Option String) × Cred :=
  if fusepath = cfg.controlfile then
    (getxattrControlfile env cfg attrname count, cur)
  else
    privilegeScope caller
      (fun eff => getxattrNormal (search eff) (onBranch eff) (lsys eff)
        cfg.srcmounts cfg.minfreespace fusepath attrname count) cur

/-! ### Concrete data for witnesses and counterexamples -/

/-- A concrete environment: a three-policy registry in registry order, a
version string, a pid, the three categories, and four operations with
their categories. -/
def env0 : XattrEnv :=
  { registry := ["all", "epmfs", "ff"]
  , version := "2.16.0"
  , pid := 42
  , categories := ["action", "create", "search"]
  , funcs := [("getattr", "search"), ("mkdir", "create"),
              ("rmdir", "action"), ("unlink", "action")] }

/-- A concrete configuration in which every operation is assigned policy
`"ff"`, so the sorted duplicate-free list of assigned policy names renders
as `"ff"` — a string different from every scalar control-file value. -/
def cfg0 : XattrConfig :=
  { controlfile := "/.mergerfs"
  , srcmounts := ["/mnt/a", "/mnt/b"]
  , minfreespace := 1
  , maxsize := 2
  , moveonenospc := false
  , dropcacheonclose := false
  , symlinkify := false
  , symlinkifyTimeout := 3
  , policies := ["ff", "ff", "ff", "ff"] }

/-- A concrete rmdir configuration whose Action resolver finds the path on
both branches. -/
def rmcfg0 : RmdirConfig :=
  { controlfile := "/.mergerfs"
  , srcmounts := ["/mnt/a", "/mnt/b"]
  , action := fun mounts p => mounts.map (fun b => b ++ p) }

/-! ### Loop lemmas for the bitwise-AND accumulator -/

theorem land_zero_zero : Int.land 0 0 = 0 := by
  show Int.land (Int.ofNat 0) (Int.ofNat 0) = 0
  simp [Int.land]

theorem land_zero_negone : Int.land 0 (-1) = 0 := by
  show Int.land (Int.ofNat 0) (Int.negSucc 0) = 0
  simp [Int.land, Nat.ldiff, Nat.bitwise_zero]

theorem land_negone_zero : Int.land (-1) 0 = 0 := by
  show Int.land (Int.negSucc 0) (Int.ofNat 0) = 0
  simp [Int.land, Nat.ldiff, Nat.bitwise_zero]

theorem land_negone_negone : Int.land (-1) (-1) = -1 := by
  show Int.land (Int.negSucc 0) (Int.negSucc 0) = -1
  simp [Int.land]

theorem rmdirLoop_zero (sys : String → SysRes) :
    ∀ (l : List String) (error en : Nat), rmdirLoop sys l 0 error en = (0, error) := by
  intro l
  induction l with
  | nil => intro error en; rfl
  | cons p ps ih =>
    intro error en
    cases hp : sys p with
    | ok =>
      simp only [rmdirLoop, hp, land_zero_zero]
      rw [if_neg (by decide)]
      exact ih error en
    | err e =>
      simp only [rmdirLoop, hp, land_zero_negone]
      rw [if_neg (by decide)]
      exact ih error e

theorem lastErrno_cons (sys : String → SysRes) (p : String) (ps : List String) (d : Nat) :
    lastErrno sys (p :: ps) d = lastErrno sys ps (errnoOf (sys p)) := by
  cases ps with
  | nil => rfl
  | cons q qs => rfl

theorem rmdirLoop_allfail (sys : String → SysRes) :
    ∀ (l : List String), (∀ p ∈ l, sys p ≠ SysRes.ok) →
      ∀ (error en : Nat), rmdirLoop sys l (-1) error en = (-1, lastErrno sys l error) := by
  intro l
  induction l with
  | nil => intro _ error en; rfl
  | cons p ps ih =>
    intro hall error en
    have hp : ∃ e, sys p = SysRes.err e := by
      cases hq : sys p with
      | ok => exact absurd hq (hall p (List.mem_cons_self p ps))
      | err e => exact ⟨e, rfl⟩
    obtain ⟨e, he⟩ := hp
    simp only [rmdirLoop, he, land_negone_negone, eq_self_iff_true, if_true]
    rw [ih (fun q hq => hall q (List.mem_cons_of_mem p hq)) e e]
    rw [lastErrno_cons sys p ps error, he]
    rfl

theorem rmdirLoop_exists_ok (sys : String → SysRes) :
    ∀ (l : List String), (∃ p ∈ l, sys p = SysRes.ok) →
      ∀ (error en : Nat), (rmdirLoop sys l (-1) error en).1 = 0 := by
  intro l
  induction l with
  | nil => intro h; exact absurd h (by simp)
  | cons p ps ih =>
    intro hex error en
    obtain ⟨x, hx, hok⟩ := hex
    cases hp : sys p with
    | ok =>
      simp only [rmdirLoop, hp, land_negone_zero]
      rw [if_neg (by decide)]
      rw [rmdirLoop_zero sys ps error en]
    | err e =>
      have hxps : x ∈ ps := by
        rcases List.mem_cons.mp hx with h | h
        · subst h; rw [hp] at hok; exact absurd hok (by simp)
        · exact h
      simp only [rmdirLoop, hp, land_negone_negone, eq_self_iff_true, if_true]
      exact ih ⟨x, hxps, hok⟩ e e

/-! ### Mirror lemmas for the explicit flag/last-error loop -/

theorem rmdirLoopExplicit_true (sys : String → SysRes) :
    ∀ (l : List String) (le : Nat), (rmdirLoopExplicit sys l true le).1 = true := by
  intro l
  induction l with
  | nil => intro le; rfl
  | cons p ps ih =>
    intro le
    cases hp : sys p with
    | ok => simp only [rmdirLoopExplicit, hp]; exact ih le
    | err e => simp only [rmdirLoopExplicit, hp]; exact ih e

theorem rmdirLoopExplicit_allfail (sys : String → SysRes) :
    ∀ (l : List String), (∀ p ∈ l, sys p ≠ SysRes.ok) →
      ∀ (le : Nat), rmdirLoopExplicit sys l false le = (false, lastErrno sys l le) := by
  intro l
  induction l with
  | nil => intro _ le; rfl
  | cons p ps ih =>
    intro hall le
    have hp : ∃ e, sys p = SysRes.err e := by
      cases hq : sys p with
      | ok => exact absurd hq (hall p (List.mem_cons_self p ps))
      | err e => exact ⟨e, rfl⟩
    obtain ⟨e, he⟩ := hp
    simp only [rmdirLoopExplicit, he]
    rw [ih (fun q hq => hall q (List.mem_cons_of_mem p hq)) e]
    rw [lastErrno_cons sys p ps le, he]
    rfl

theorem rmdirLoopExplicit_exists_ok (sys : String → SysRes) :
    ∀ (l : List String), (∃ p ∈ l, sys p = SysRes.ok) →
      ∀ (le : Nat), (rmdirLoopExplicit sys l false le).1 = true := by
  intro l
  induction l with
  | nil => intro h; exact absurd h (by simp)
  | cons p ps ih =>
    intro hex le
    obtain ⟨x, hx, hok⟩ := hex
    cases hp : sys p with
    | ok =>
      simp only [rmdirLoopExplicit, hp]
      exact rmdirLoopExplicit_true sys ps le
    | err e =>
      have hxps : x ∈ ps := by
        rcases List.mem_cons.mp hx with h | h
        · subst h; rw [hp] at hok; exact absurd hok (by simp)
        · exact h
      simp only [rmdirLoopExplicit, hp]
      exact ih ⟨x, hxps, hok⟩ e

/-! ### Claim theorems about directory removal -/

/-- C1: for a non-empty Action candidate set, `_rmdir` returns `0` as soon
as the underlying `::rmdir` succeeds on at least one candidate branch,
regardless of failures on the others; if it fails on every candidate it
returns the negated error code of the last attempted branch, in
branch-configured order. -/
theorem rmdir_action_aggregation (sys : String → SysRes) (paths : List String)
    (h : paths ≠ []) :
    ((∃ p ∈ paths, sys p = SysRes.ok) → (rmdirAction sys paths).1 = 0) ∧
    ((∀ p ∈ paths, sys p ≠ SysRes.ok) →
      (rmdirAction sys paths).1 = -(errnoOf (sys (paths.getLast h)) : Int)) := by
  cases paths with
  | nil => exact absurd rfl h
  | cons p ps =>
    constructor
    · intro hex
      have h0 := rmdirLoop_exists_ok sys (p :: ps) hex 0 0
      simp only [rmdirAction]
      rw [if_neg (by rw [h0]; decide)]
    · intro hall
      have h0 := rmdirLoop_allfail sys (p :: ps) hall 0 0
      simp only [rmdirAction, h0, eq_self_iff_true, if_true]
      have hlast : lastErrno sys (p :: ps) 0 = errnoOf (sys ((p :: ps).getLast h)) := by
        unfold lastErrno
        rw [List.getLast?_eq_getLast (p :: ps) h]
      rw [hlast]

/-- Concrete instance of C1: with branches `/a/d` (removal succeeds) and
`/b/d` (removal fails), the aggregate result is `0`; with both failing and
the last failing with errno 13, the aggregate result is `-13`. -/
theorem rmdir_action_aggregation_witness :
    (rmdirAction (fun p => if p = "/a/d" then SysRes.ok else SysRes.err 13)
      ["/a/d", "/b/d"]).1 = 0 ∧
    (rmdirAction (fun _ => SysRes.err 13) ["/a/d", "/b/d"]).1 = -13 := by
  constructor
  · exact (rmdir_action_aggregation
      (fun p => if p = "/a/d" then SysRes.ok else SysRes.err 13)
      ["/a/d", "/b/d"] (by decide)).1 ⟨"/a/d", by decide, by decide⟩
  · exact ((rmdir_action_aggregation (fun _ => SysRes.err 13)
      ["/a/d", "/b/d"] (by decide)).2 (by intro p _; decide)).trans (by decide)

/-- C2: a directory remove on a non-control path whose Action resolver
returns an empty candidate set returns `-ENOENT` immediately and issues
zero underlying system calls (the second component counts issued
`::rmdir` calls). -/
theorem rmdir_empty_candidates (cfg : RmdirConfig) (sys : Cred → String → SysRes)
    (caller cur : Cred) (fusepath : String)
    (hctl : fusepath ≠ cfg.controlfile)
    (hempty : cfg.action cfg.srcmounts fusepath = []) :
    rmdirFuse cfg sys caller fusepath cur = ((-ENOENT, 0), cur) := by
  show ((if fusepath = cfg.controlfile then (-ENOTDIR, 0)
          else rmdirAction (sys caller) (cfg.action cfg.srcmounts fusepath)), cur)
        = ((-ENOENT, 0), cur)
  rw [if_neg hctl, hempty]
  rfl

/-- Concrete instance of C2: a two-branch configuration whose Action
resolver finds `/d` on no branch. -/
theorem rmdir_empty_candidates_witness :
    rmdirFuse
      { controlfile := "/.mergerfs", srcmounts := ["/mnt/a", "/mnt/b"],
        action := fun _ _ => [] }
      (fun _ _ => SysRes.err 13) ⟨1000, 1000⟩ "/d" ⟨0, 0⟩
      = ((-ENOENT, 0), ⟨0, 0⟩) :=
  rmdir_empty_candidates
    { controlfile := "/.mergerfs", srcmounts := ["/mnt/a", "/mnt/b"],
      action := fun _ _ => [] }
    (fun _ _ => SysRes.err 13) ⟨1000, 1000⟩ ⟨0, 0⟩ "/d" (by decide) rfl

/-- C3: a directory remove targeting the reserved control path returns
`-ENOTDIR`, for every configuration (branch contents, resolver) and every
system-call behaviour, with zero underlying system calls issued and no
branch resolution observable in the result. -/
theorem rmdir_controlfile_rejected (cfg : RmdirConfig) (sys : Cred → String → SysRes)
    (caller cur : Cred) :
    rmdirFuse cfg sys caller cfg.controlfile cur = ((-ENOTDIR, 0), cur) := by
  show ((if cfg.controlfile = cfg.controlfile then (-ENOTDIR, 0)
          else rmdirAction (sys caller) (cfg.action cfg.srcmounts cfg.controlfile)), cur)
        = ((-ENOTDIR, 0), cur)
  rw [if_pos rfl]

/-- C9: the bitwise-AND accumulator aggregation of `_rmdir` (rv initialized
to `-1`, `rv &= call`, error recorded while `rv` is `-1`) computes the same
result, for every sequence of per-branch outcomes, as the explicit
formulation with an "any succeeded" flag plus a "last error" variable. -/
theorem rmdir_bitwise_equals_explicit (sys : String → SysRes) (paths : List String) :
    rmdirAction sys paths = rmdirActionExplicit sys paths := by
  cases paths with
  | nil => rfl
  | cons p ps =>
    by_cases hall : ∀ q ∈ p :: ps, sys q ≠ SysRes.ok
    · have h1 := rmdirLoop_allfail sys (p :: ps) hall 0 0
      have h2 := rmdirLoopExplicit_allfail sys (p :: ps) hall 0
      simp only [rmdirAction, rmdirActionExplicit, h1, h2]
      rfl
    · push_neg at hall
      have h1 := rmdirLoop_exists_ok sys (p :: ps) hall 0 0
      have h2 := rmdirLoopExplicit_exists_ok sys (p :: ps) hall 0
      simp only [rmdirAction, rmdirActionExplicit]
      rw [if_neg (by rw [h1]; decide), if_pos (by rw [h2])]


/-! ### String and split/join lemmas -/

theorem data_append (a b : String) : (a ++ b).data = a.data ++ b.data := rfl

theorem mk_data (s : String) : String.mk s.data = s := rfl

theorem str_append_assoc (a b c : String) : a ++ b ++ c = a ++ (b ++ c) :=
  congrArg String.mk (List.append_assoc a.data b.data c.data)

theorem str_data_eq {a b : String} (h : a.data = b.data) : a = b :=
  congrArg String.mk h

theorem isEmpty_false_of_ne_nil {α : Type} {l : List α} (h : l ≠ []) :
    l.isEmpty = false := by
  cases l with
  | nil => exact absurd rfl h
  | cons a as => rfl

theorem length_ne_zero_of_ne_empty {s : String} (h : s ≠ "") : s.length ≠ 0 := by
  intro hl
  apply h
  cases s with
  | mk data =>
    cases data with
    | nil => rfl
    | cons c cs => exact absurd hl (by simp [String.length])

theorem splitGo_no_sep (sep : Char) :
    ∀ (cs acc : List Char), sep ∉ cs →
      splitGo sep cs acc = [String.mk (acc.reverse ++ cs)] := by
  intro cs
  induction cs with
  | nil => intro acc _; simp [splitGo]
  | cons c cs ih =>
    intro acc hmem
    have hc : ¬(c = sep) := fun h => hmem (h ▸ List.mem_cons_self c cs)
    simp only [splitGo, if_neg hc]
    rw [ih (c :: acc) (fun h => hmem (List.mem_cons_of_mem c h))]
    simp

theorem splitGo_sep_append (sep : Char) :
    ∀ (cs acc rest : List Char), sep ∉ cs → rest ≠ [] →
      splitGo sep (cs ++ sep :: rest) acc
        = String.mk (acc.reverse ++ cs) :: splitGo sep rest [] := by
  intro cs
  induction cs with
  | nil =>
    intro acc rest _ hrest
    cases rest with
    | nil => exact absurd rfl hrest
    | cons r rs =>
      simp only [List.nil_append, splitGo, if_pos rfl, List.isEmpty_cons,
        Bool.false_eq_true, if_false]
      simp
  | cons c cs ih =>
    intro acc rest hmem hrest
    have hc : ¬(c = sep) := fun h => hmem (h ▸ List.mem_cons_self c cs)
    show splitGo sep (c :: (cs ++ sep :: rest)) acc
        = String.mk (acc.reverse ++ c :: cs) :: splitGo sep rest []
    simp only [splitGo, if_neg hc]
    rw [ih (c :: acc) rest (fun h => hmem (List.mem_cons_of_mem c h)) hrest]
    simp

theorem strJoin_cons_cons (sep : Char) (x y : String) (ys : List String) :
    strJoin sep (x :: y :: ys) = x ++ String.mk [sep] ++ strJoin sep (y :: ys) := rfl

theorem strJoin_data_ne_nil (sep : Char) (y : String) (ys : List String)
    (hy : y.data ≠ []) : (strJoin sep (y :: ys)).data ≠ [] := by
  cases ys with
  | nil => exact hy
  | cons z zs =>
    rw [strJoin_cons_cons, data_append, data_append]
    simp [hy]

theorem strSplit_strJoin (sep : Char) :
    ∀ (l : List String), l ≠ [] → (∀ x ∈ l, x.data ≠ [] ∧ sep ∉ x.data) →
      strSplit sep (strJoin sep l) = l := by
  intro l
  induction l with
  | nil => intro h _; exact absurd rfl h
  | cons x xs ih =>
    intro _ hx
    obtain ⟨hxd, hxsep⟩ := hx x (List.mem_cons_self x xs)
    cases xs with
    | nil =>
      show strSplit sep x = [x]
      unfold strSplit
      rw [if_neg (by rw [isEmpty_false_of_ne_nil hxd]; decide)]
      rw [splitGo_no_sep sep x.data [] hxsep]
      simp [mk_data]
    | cons y ys =>
      obtain ⟨hyd, _⟩ := hx y (List.mem_cons_of_mem x (List.mem_cons_self y ys))
      have hdata : (strJoin sep (x :: y :: ys)).data
          = x.data ++ sep :: (strJoin sep (y :: ys)).data := by
        rw [strJoin_cons_cons, data_append, data_append]
        simp
      have hrest : (strJoin sep (y :: ys)).data ≠ [] :=
        strJoin_data_ne_nil sep y ys hyd
      have hwhole : (strJoin sep (x :: y :: ys)).data ≠ [] := by
        rw [hdata]; simp
      unfold strSplit
      rw [if_neg (by rw [isEmpty_false_of_ne_nil hwhole]; decide)]
      rw [hdata, splitGo_sep_append sep x.data [] _ hxsep hrest]
      have htail : splitGo sep (strJoin sep (y :: ys)).data []
          = strSplit sep (strJoin sep (y :: ys)) := by
        unfold strSplit
        rw [if_neg (by rw [isEmpty_false_of_ne_nil hrest]; decide)]
      rw [htail, ih (by simp) (fun z hz => hx z (List.mem_cons_of_mem x hz))]
      simp [mk_data]

theorem foldl_comma_join (ps : List String) :
    ∀ p : String, ps.foldl (fun acc q => acc ++ "," ++ q) p = strJoin ',' (p :: ps) := by
  induction ps with
  | nil => intro p; rfl
  | cons q qs ih =>
    intro p
    show qs.foldl (fun acc r => acc ++ "," ++ r) (p ++ "," ++ q) = strJoin ',' (p :: q :: qs)
    rw [ih (p ++ "," ++ q)]
    have hm : String.mk [','] = "," := rfl
    cases qs with
    | nil => rfl
    | cons r rs =>
      rw [strJoin_cons_cons, strJoin_cons_cons, strJoin_cons_cons, hm]
      apply str_data_eq
      simp only [data_append, List.append_assoc]

theorem policiesValue_eq_strJoin (registry : List String) (h : registry ≠ []) :
    policiesValue registry = strJoin ',' registry := by
  cases registry with
  | nil => exact absurd rfl h
  | cons p ps => exact foldl_comma_join ps p

/-! ### Claim theorems about the extended-attribute interface -/

/-- C7: for the control-file key enumerating all known policy names, the
returned value split on the comma separator equals the registry's full
policy-name sequence in registry order, with no duplicates.  The registry
is fixed at build time: non-empty, duplicate-free, names non-empty and
comma-free. -/
theorem policies_key_roundtrip (env : XattrEnv) (cfg : XattrConfig)
    (hne : env.registry ≠ [])
    (hnames : ∀ n ∈ env.registry, n.data ≠ [] ∧ (',' : Char) ∉ n.data)
    (hnodup : env.registry.Nodup) :
    strSplit ',' (controlfileSwitch env cfg ["user", "mergerfs", "policies"])
      = env.registry ∧
    (strSplit ',' (controlfileSwitch env cfg ["user", "mergerfs", "policies"])).Nodup := by
  have hv : controlfileSwitch env cfg ["user", "mergerfs", "policies"]
      = policiesValue env.registry := rfl
  have hsplit : strSplit ',' (controlfileSwitch env cfg ["user", "mergerfs", "policies"])
      = env.registry := by
    rw [hv, policiesValue_eq_strJoin env.registry hne]
    exact strSplit_strJoin ',' env.registry hne hnames
  exact ⟨hsplit, hsplit ▸ hnodup⟩

/-- Concrete instance of C7 at the three-policy registry of `env0`. -/
theorem policies_key_roundtrip_witness :
    strSplit ',' (controlfileSwitch env0 cfg0 ["user", "mergerfs", "policies"])
      = env0.registry ∧
    (strSplit ',' (controlfileSwitch env0 cfg0 ["user", "mergerfs", "policies"])).Nodup :=
  policies_key_roundtrip env0 cfg0 (by decide) (by decide) (by decide)

/-- C6 counterexample: with every operation assigned policy `"ff"`
(`cfg0`), the sorted duplicate-free comma-joined list of assigned policy
names is `"ff"`, and no 3-total-segment control-file key returns it: the
`policies` key returns the registry's full list `"all,epmfs,ff"` instead,
every other recognized key returns an unrelated scalar, and unrecognized
keys produce the empty (attribute-not-found) value. -/
theorem no_scalar_assigned_policies_key :
    ¬ ∃ k : String, controlfileSwitch env0 cfg0 ["user", "mergerfs", k]
        = strJoin ',' (uniqueConsecutive (sortStrings cfg0.policies)) := by
  rintro ⟨k, hk⟩
  have hval : strJoin ',' (uniqueConsecutive (sortStrings cfg0.policies)) = "ff" := by decide
  rw [hval] at hk
  simp only [controlfileSwitch] at hk
  split_ifs at hk <;> exact absurd hk (by decide)

/-- C6 (amended): among the 1-segment (3 total segments) control-file keys
there is no key for the assigned-policy list; the only policy-list scalar
key is `policies`, which returns the registry's full known-policy list in
registry order, every key outside the ten recognized ones yields the empty
(not-found) value, and the sorted duplicate-free assigned-policy lists are
exposed only per-Category by the 2-segment `category.<name>` keys. -/
theorem scalar_key_values (env : XattrEnv) (cfg : XattrConfig) (k : String)
    (hk : k ∉ ["srcmounts", "minfreespace", "maxsize", "moveonenospc",
               "dropcacheonclose", "symlinkify", "symlinkify_timeout",
               "policies", "version", "pid"]) :
    controlfileSwitch env cfg ["user", "mergerfs", "policies"]
        = policiesValue env.registry ∧
    controlfileSwitch env cfg ["user", "mergerfs", k] = "" ∧
    (∀ c : String, controlfileSwitch env cfg ["user", "mergerfs", "category", c]
        = categoryPolicyValue env cfg c) := by
  refine ⟨rfl, ?_, fun c => rfl⟩
  simp only [List.mem_cons, List.not_mem_nil, or_false, not_or] at hk
  obtain ⟨h1, h2, h3, h4, h5, h6, h7, h8, h9, h10⟩ := hk
  simp only [controlfileSwitch, if_neg h1, if_neg h2, if_neg h3, if_neg h4,
    if_neg h5, if_neg h6, if_neg h7, if_neg h8, if_neg h9, if_neg h10]

/-- Concrete instance of the amended C6 at `env0`/`cfg0` with the
unrecognized key `"allpolicies"`. -/
theorem scalar_key_values_witness :
    controlfileSwitch env0 cfg0 ["user", "mergerfs", "policies"]
        = policiesValue env0.registry ∧
    controlfileSwitch env0 cfg0 ["user", "mergerfs", "allpolicies"] = "" ∧
    (∀ c : String, controlfileSwitch env0 cfg0 ["user", "mergerfs", "category", c]
        = categoryPolicyValue env0 cfg0 c) :=
  scalar_key_values env0 cfg0 "allpolicies" (by decide)

/-- C4: the attribute-read buffer protocol for a non-empty resolved value:
supplied size `0` returns the value's length and writes nothing (size
probe); a nonzero size smaller than the length returns `-ERANGE` and
writes nothing; otherwise exactly the value's bytes are written and its
length returned.  Stated for the control-file handler
(`_getxattr_controlfile`) and for the per-path value server
(`_getxattr_from_string`). -/
theorem xattr_buffer_protocol (env : XattrEnv) (cfg : XattrConfig)
    (attrname k : String) (count : Nat)
    (hsplit : strSplit '.' attrname = ["user", "mergerfs", k])
    (hv : controlfileSwitch env cfg ["user", "mergerfs", k] ≠ "") :
    ((count = 0 → getxattrControlfile env cfg attrname count
        = some (((controlfileSwitch env cfg ["user", "mergerfs", k]).length : Int), none)) ∧
     (count ≠ 0 → count < (controlfileSwitch env cfg ["user", "mergerfs", k]).length →
        getxattrControlfile env cfg attrname count = some (-ERANGE, none)) ∧
     ((controlfileSwitch env cfg ["user", "mergerfs", k]).length ≤ count →
        getxattrControlfile env cfg attrname count
          = some (((controlfileSwitch env cfg ["user", "mergerfs", k]).length : Int),
              some (controlfileSwitch env cfg ["user", "mergerfs", k])))) ∧
    (∀ src : String, src ≠ "" →
      ((count = 0 → getxattrFromString count src = ((src.length : Int), none)) ∧
       (count ≠ 0 → count < src.length → getxattrFromString count src = (-ERANGE, none)) ∧
       (src.length ≤ count → count ≠ 0 →
          getxattrFromString count src = ((src.length : Int), some src)))) := by
  have hmain : getxattrControlfile env cfg attrname count
      = (if controlfileSwitch env cfg ["user", "mergerfs", k] = ""
           then some (-ENOATTR, none)
         else if count = 0
           then some (((controlfileSwitch env cfg ["user", "mergerfs", k]).length : Int), none)
         else if count < (controlfileSwitch env cfg ["user", "mergerfs", k]).length
           then some (-ERANGE, none)
         else some (((controlfileSwitch env cfg ["user", "mergerfs", k]).length : Int),
             some (controlfileSwitch env cfg ["user", "mergerfs", k]))) := by
    unfold getxattrControlfile
    rw [hsplit]
    rfl
  rw [if_neg hv] at hmain
  refine ⟨⟨?_, ?_, ?_⟩, ?_⟩
  · intro h0
    rw [hmain, if_pos h0]
  · intro h0 hlt
    rw [hmain, if_neg h0, if_pos hlt]
  · intro hle
    have h0 : count ≠ 0 := by
      intro hc
      apply length_ne_zero_of_ne_empty hv
      subst hc
      exact Nat.le_zero.mp hle
    rw [hmain, if_neg h0, if_neg (Nat.not_lt.mpr hle)]
  · intro src _
    refine ⟨?_, ?_, ?_⟩
    · intro h0
      unfold getxattrFromString
      rw [if_pos h0]
    · intro h0 hlt
      unfold getxattrFromString
      rw [if_neg h0, if_pos hlt]
    · intro hle h0
      unfold getxattrFromString
      rw [if_neg h0, if_neg (Nat.not_lt.mpr hle)]

/-- Concrete instance of C4: a size probe (`count = 0`) on the control-file
key `pid` returns the value's length without writing. -/
theorem xattr_buffer_protocol_witness :
    getxattrControlfile env0 cfg0 "user.mergerfs.pid" 0
      = some (((controlfileSwitch env0 cfg0 ["user", "mergerfs", "pid"]).length : Int), none) :=
  ((xattr_buffer_protocol env0 cfg0 "user.mergerfs.pid" "pid" 0
    (by decide) (by decide)).1).1 rfl

/-- C8: the per-path diagnostic key `allpaths` serves, through the buffer
protocol, the NUL-joined list of the fully-qualified path on every branch
containing the entry, in branch-configured order; split on the NUL
separator the value is exactly that list.  The statement quantifies over
an arbitrary existence oracle `onBranch` and mentions no Action resolver
or write-eligibility: existence across all branches is the only input. -/
theorem allpaths_value (onBranch : String → String → Bool)
    (basepath : String) (srcmounts : List String) (fusepath : String) (count : Nat)
    (hb : ∀ b ∈ srcmounts, b.data ≠ [] ∧ Char.ofNat 0 ∉ b.data)
    (hf : Char.ofNat 0 ∉ fusepath.data)
    (hne : srcmounts.filter (fun b => onBranch b fusepath) ≠ []) :
    getxattrUserMergerfs onBranch basepath fusepath (makeFullPath basepath fusepath)
        srcmounts "user.mergerfs.allpaths" count
      = some (getxattrFromString count
          (strJoin (Char.ofNat 0) (findallfiles onBranch srcmounts fusepath))) ∧
    strSplit (Char.ofNat 0)
        (strJoin (Char.ofNat 0) (findallfiles onBranch srcmounts fusepath))
      = (srcmounts.filter (fun b => onBranch b fusepath)).map
          (fun b => b ++ fusepath) := by
  constructor
  · rfl
  · have hmap : findallfiles onBranch srcmounts fusepath
        = (srcmounts.filter (fun b => onBranch b fusepath)).map
            (fun b => b ++ fusepath) := rfl
    have hne2 : findallfiles onBranch srcmounts fusepath ≠ [] := by
      rw [hmap]
      intro hnil
      exact hne (List.map_eq_nil_iff.mp hnil)
    have hx : ∀ x ∈ findallfiles onBranch srcmounts fusepath,
        x.data ≠ [] ∧ Char.ofNat 0 ∉ x.data := by
      intro x hxmem
      rw [hmap] at hxmem
      obtain ⟨b, hbmem, rfl⟩ := List.mem_map.mp hxmem
      obtain ⟨hbd, hbn⟩ := hb b (List.mem_of_mem_filter hbmem)
      constructor
      · rw [data_append]
        simp [hbd]
      · rw [data_append]
        intro hmem
        rcases List.mem_append.mp hmem with h | h
        · exact hbn h
        · exact hf h
    rw [strSplit_strJoin (Char.ofNat 0) (findallfiles onBranch srcmounts fusepath) hne2 hx]
    exact hmap

/-- Concrete instance of C8: `/d` present on both `/mnt/a` and `/mnt/b`. -/
theorem allpaths_value_witness :
    getxattrUserMergerfs (fun _ _ => true) "/mnt/a" "/d" (makeFullPath "/mnt/a" "/d")
        ["/mnt/a", "/mnt/b"] "user.mergerfs.allpaths" 0
      = some (getxattrFromString 0
          (strJoin (Char.ofNat 0) (findallfiles (fun _ _ => true) ["/mnt/a", "/mnt/b"] "/d"))) ∧
    strSplit (Char.ofNat 0)
        (strJoin (Char.ofNat 0) (findallfiles (fun _ _ => true) ["/mnt/a", "/mnt/b"] "/d"))
      = (["/mnt/a", "/mnt/b"].filter (fun b => (fun _ _ => true) b "/d")).map
          (fun b => b ++ "/d") :=
  allpaths_value (fun _ _ => true) "/mnt/a" ["/mnt/a", "/mnt/b"] "/d" 0
    (by decide) (by decide) (by decide)

/-- C10 (observed code behaviour at the failing inputs): the attribute-name
split vector is indexed out of bounds.  For the dot-less name `"user"` on
the control path, `attr[0] == "user"` holds so the short-circuited check
reads `attr[1]` of the 1-element vector; for the name `"user.mergerfs."`
(which passes the `user.mergerfs.` prefix guard), the per-path handler
reads `attr[2]` of the 2-element vector.  Both out-of-bounds accesses are
the `none` result of the embedding. -/
theorem xattr_split_oob :
    getxattrControlfile env0 cfg0 "user" 0 = none ∧
    getxattrUserMergerfs (fun _ _ => false) "/mnt/a" "/d" "/mnt/a/d"
        cfg0.srcmounts "user.mergerfs." 0 = none :=
  ⟨rfl, rfl⟩

/-- C5: for every dispatched operation on a non-control path — directory
remove and attribute read alike — the privilege scope applies the calling
principal's effective identity for the duration of the operation (the
dispatched body and its system calls observe `caller`) and the previous
effective identity is restored on every exit path (the final identity
equals the incoming one, whatever the body returned). -/
theorem privilege_scope_contract
    (cfg : RmdirConfig) (xcfg : XattrConfig) (env : XattrEnv)
    (sys : Cred → String → SysRes)
    (search : Cred → List String → String → Nat → Except Nat String)
    (onBranch : Cred → String → String → Bool)
    (lsys : Cred → String → String → Nat → Int × Option String)
    (caller cur cur' : Cred) (fusepath attrname : String) (count : Nat)
    (hctl : fusepath ≠ xcfg.controlfile) :
    ((rmdirFuse cfg sys caller fusepath cur').2 = cur' ∧
      (fusepath ≠ cfg.controlfile →
        (rmdirFuse cfg sys caller fusepath cur').1
          = rmdirAction (sys caller) (cfg.action cfg.srcmounts fusepath))) ∧
    ((getxattrFuse xcfg env search onBranch lsys caller fusepath attrname count cur).2
        = cur ∧
      (getxattrFuse xcfg env search onBranch lsys caller fusepath attrname count cur).1
        = getxattrNormal (search caller) (onBranch caller) (lsys caller)
            xcfg.srcmounts xcfg.minfreespace fusepath attrname count) := by
  refine ⟨⟨rfl, fun h => ?_⟩, ?_, ?_⟩
  · show (if fusepath = cfg.controlfile then (-ENOTDIR, 0)
          else rmdirAction (sys caller) (cfg.action cfg.srcmounts fusepath))
        = rmdirAction (sys caller) (cfg.action cfg.srcmounts fusepath)
    rw [if_neg h]
  · unfold getxattrFuse
    rw [if_neg hctl]
    rfl
  · unfold getxattrFuse
    rw [if_neg hctl]
    rfl

/-- Concrete instance of C5 at `rmcfg0`/`cfg0` on the non-control path
`/d`: the final identity equals the incoming one and the bodies run at the
caller's identity. -/
theorem privilege_scope_contract_witness :
    ((rmdirFuse rmcfg0 (fun _ _ => SysRes.err 13) ⟨1000, 100⟩ "/d" ⟨0, 0⟩).2 = ⟨0, 0⟩ ∧
      ("/d" ≠ rmcfg0.controlfile →
        (rmdirFuse rmcfg0 (fun _ _ => SysRes.err 13) ⟨1000, 100⟩ "/d" ⟨0, 0⟩).1
          = rmdirAction ((fun _ _ => SysRes.err 13) (⟨1000, 100⟩ : Cred))
              (rmcfg0.action rmcfg0.srcmounts "/d"))) ∧
    ((getxattrFuse cfg0 env0 (fun _ _ _ _ => Except.error 2) (fun _ _ _ => false)
        (fun _ _ _ _ => (0, none)) ⟨1000, 100⟩ "/d" "user.foo" 0 ⟨0, 0⟩).2 = ⟨0, 0⟩ ∧
      (getxattrFuse cfg0 env0 (fun _ _ _ _ => Except.error 2) (fun _ _ _ => false)
        (fun _ _ _ _ => (0, none)) ⟨1000, 100⟩ "/d" "user.foo" 0 ⟨0, 0⟩).1
        = getxattrNormal ((fun _ _ _ _ => Except.error 2) (⟨1000, 100⟩ : Cred))
            ((fun _ _ _ => false) (⟨1000, 100⟩ : Cred))
            ((fun _ _ _ _ => (0, none)) (⟨1000, 100⟩ : Cred))
            cfg0.srcmounts cfg0.minfreespace "/d" "user.foo" 0) :=
  privilege_scope_contract rmcfg0 cfg0 env0 (fun _ _ => SysRes.err 13)
    (fun _ _ _ _ => Except.error 2) (fun _ _ _ => false) (fun _ _ _ _ => (0, none))
    ⟨1000, 100⟩ ⟨0, 0⟩ ⟨0, 0⟩ "/d" "user.foo" 0 (by decide)

end Mergerfs
